import Mathlib

/-!
Verification of the Markdown link checker (`build/check-links/check-links.py`
and its older duplicate `.github/workflows/check-links/check-links.py`).

Strings are modelled as `List Char` (ASCII model of Python `str`); the
Markdown/HTML front end is abstracted to a `Doc` (ordered heading texts and
link hrefs, exactly what the script queries via `find_all`); the filesystem,
network and compiled exclusion regex are abstracted into an `Env` of
predicates.  Per-link control flow, the mutable `result` counter, the mutable
`doc` variable, the order of `get`/`sleep` effects and the raise/except
boundaries are transcribed from the source.
-/

/-- Python strings, modelled as lists of characters. -/
abbrev Str := List Char

/-- Turn a Lean string literal into the `Str` model. -/
def sc (s : String) : Str := s.toList

/-- Python `str.isspace` characters relevant to `str.strip()`:
space, tab, newline, carriage return, vertical tab, form feed. -/
def isPySpace (c : Char) : Bool :=
  c == ' ' || c == '\t' || c == '\n' || c == '\r' || c == '\x0b' || c == '\x0c'

/-- ASCII model of Python `str.lower()` on a single character. -/
def pyLowerChar (c : Char) : Char :=
  match c with
  | 'A' => 'a' | 'B' => 'b' | 'C' => 'c' | 'D' => 'd' | 'E' => 'e'
  | 'F' => 'f' | 'G' => 'g' | 'H' => 'h' | 'I' => 'i' | 'J' => 'j'
  | 'K' => 'k' | 'L' => 'l' | 'M' => 'm' | 'N' => 'n' | 'O' => 'o'
  | 'P' => 'p' | 'Q' => 'q' | 'R' => 'r' | 'S' => 's' | 'T' => 't'
  | 'U' => 'u' | 'V' => 'v' | 'W' => 'w' | 'X' => 'x' | 'Y' => 'y'
  | 'Z' => 'z'
  | c => c

/-- Python `s.lower()` (ASCII model). -/
def pyLower (s : Str) : Str := s.map pyLowerChar

/-- One character of Python `s.replace(" ", "-")`. -/
def replChar (c : Char) : Char := if c == ' ' then '-' else c

/-- Python `s.replace(" ", "-")`. -/
def replaceSpace (s : Str) : Str := s.map replChar

/-- Python `s.strip()`: drop leading and trailing whitespace. -/
def pyStrip (s : Str) : Str :=
  ((s.dropWhile isPySpace).reverse.dropWhile isPySpace).reverse

/-- Boolean list-prefix test used by `isSub`. -/
def isPrefixB : Str → Str → Bool
  | [], _ => true
  | _ :: _, [] => false
  | a :: s, b :: t => a == b && isPrefixB s t

/-- Python `needle in hay` on strings: substring containment. -/
def isSub (needle : Str) : Str → Bool
  | [] => isPrefixB needle []
  | c :: t => isPrefixB needle (c :: t) || isSub needle t

/-- Python `s.startswith("#")`. -/
def startsHash (s : Str) : Bool :=
  match s with
  | c :: _ => c == '#'
  | [] => false

/-- Model of `re.findall("^#+(.*)", lnk)`: anchored at the start of the
string, `#+` greedily takes the leading run of `#`, and `(.*)` captures up to
the first newline (Python `.` does not match `\n`).  At most one match. -/
def findAnchors (lnk : Str) : List Str :=
  if startsHash lnk then
    [(lnk.dropWhile (fun c => c == '#')).takeWhile (fun c => !(c == '\n'))]
  else []

/-- Parsed headings and link hrefs of one Markdown file: exactly what the
script queries from the BeautifulSoup document via
`find_all(re.compile('^h[1-6]$'))` (heading texts, in order) and
`find_all('a')` (hrefs, `none` when the `a` tag has no `href`). -/
structure Doc where
  headings : List Str
  links : List (Option Str)
deriving DecidableEq

/-- Transcription of `match_header(lnk, document)`:
strip the leading `#` run, `strip().lower()`, then test membership of the
space-to-hyphen slug in `[a.text.replace(" ", "-").lower().strip() ...]`.
Returns `none` when the regex finds no anchor (Python falls off the function
and returns `None`). -/
def match_header (lnk : Str) (document : Doc) : Option Bool :=
  match findAnchors lnk with
  | [] => none
  | a0 :: _ =>
    let a := pyLower (pyStrip a0)
    some ((document.headings.map
      (fun h => pyStrip (pyLower (replaceSpace h)))).contains (replaceSpace a))

/-- Python truthiness of the `match_header` result at its call sites
(`None` and `False` are both falsy). -/
def truthy (o : Option Bool) : Bool := o.getD false

/-- Python regex `\w` on ASCII: letters, digits, underscore. -/
def wordChar (c : Char) : Bool :=
  ('a' ≤ c && c ≤ 'z') || ('A' ≤ c && c ≤ 'Z') || ('0' ≤ c && c ≤ '9') || c == '_'

/-- Scanner for the first match of `re.findall(r'(.*?)#+(\w.*)', url)`.
`acc` is the reversed newline-free stretch read since the last `\n` (the lazy
prefix of the leftmost match), `k` the length of the pending `#` run.  A run
is viable when the character after the whole run is a word character; the
prefix group is everything of the current stretch before the run, the anchor
group runs from that word character to the next newline or the end. -/
def findSplitAux : Str → Str → Nat → Option (Str × Str)
  | [], _, _ => none
  | c :: t, acc, k =>
    if c == '#' then findSplitAux t acc (k + 1)
    else if k > 0 then
      if wordChar c then some (acc.reverse, (c :: t).takeWhile (fun d => !(d == '\n')))
      else if c == '\n' then findSplitAux t [] 0
      else findSplitAux t (c :: (List.replicate k '#' ++ acc)) 0
    else if c == '\n' then findSplitAux t [] 0
    else findSplitAux t (c :: acc) 0

/-- First match of `re.findall(r'(.*?)#+(\w.*)', url)` as
`(target_file, anchor)`, `none` when the regex finds no match (in which case
the script's `[0]` raises `IndexError`). -/
def findSplit (url : Str) : Option (Str × Str) := findSplitAux url [] 0

/-- Index of the last `/` in a path, if any. -/
def rfindSlash (p : Str) : Option Nat :=
  match p.reverse.findIdx? (fun c => c == '/') with
  | none => none
  | some i => some (p.length - 1 - i)

/-- Model of `os.path.dirname` (posix): the part before the final `/`,
with trailing slashes stripped unless the head is all slashes. -/
def pyDirname (p : Str) : Str :=
  match rfindSlash p with
  | none => []
  | some i =>
    let head := p.take (i + 1)
    if head.all (fun c => c == '/') then head
    else (head.reverse.dropWhile (fun c => c == '/')).reverse

/-- Outcome of validating one link (the spec's `ValidationResult`). -/
inductive Outcome
  | valid
  | broken
  | skipped
deriving DecidableEq

/-- Observable effects of the run, in program order: HTTP GET requests,
politeness sleeps, recorded per-link outcomes, and printed lines
(`ok`/`fail`/status lines, plus other notices). -/
inductive Event
  | get (url : Str)
  | sleep (n : Nat)
  | outcome (target : Str) (o : Outcome)
  | okLine (target : Str)
  | failLine (target : Str)
  | statusLine (url : Str) (status : Nat)
  | noteLine
deriving DecidableEq

/-- Result of `requests.get`: a response status code, or a raised
network-level exception (connection error, timeout). -/
inductive HttpRes
  | resp (status : Nat)
  | raise
deriving DecidableEq

/-- External collaborators of the script: the HTTP client, `validators.url`,
`os.path.exists` / `os.path.isfile`, reading and parsing a referenced file,
and `os.path.abspath`. -/
structure Env where
  http : Str → HttpRes
  isValidUrl : Str → Bool
  fsExists : Str → Bool
  fsIsFile : Str → Bool
  readDoc : Str → Doc
  abspath : Str → Str

/-- Exclusion configuration after the loading block: the compiled URL regex
alternation as a start-anchored match predicate (`none` when no pattern
compiled, i.e. the global `regex` stays `False`), and the literal
path-exclusion substrings. -/
structure CfgData where
  urlMatch : Option (Str → Bool)
  pathExclusions : List Str

/-- Loop-carried state of the build-variant per-link loop: the `result`
counter and the (reassignable) `doc` variable. -/
structure LoopSt where
  result : Nat
  doc : Doc

/-- How one loop iteration ends: proceed to the next link, or an exception
propagates out of the `for` loop to the outer handler. -/
inductive StepRes (σ : Type)
  | next (st : σ)
  | raised (st : σ)

/-- The state carried out of a step, whether it raised or not. -/
def stResOf {σ : Type} : StepRes σ → σ
  | .next s => s
  | .raised s => s

/-- Truthiness of `regex_template.match(url)` guarded by the `regex` flag. -/
def exclMatch (um : Option (Str → Bool)) (u : Str) : Bool :=
  match um with
  | some p => p u
  | none => false

/-- Whether an event is a recorded `Broken` outcome. -/
def isBrokenEv : Event → Bool
  | .outcome _ .broken => true
  | _ => false

/-- Number of `Broken` outcomes recorded in a trace. -/
def countBroken (tr : List Event) : Nat := (tr.filter isBrokenEv).length

/-- Whether an event is an HTTP GET of the given URL. -/
def isGetEv (u : Str) : Event → Bool
  | .get w => w == u
  | _ => false

/-- Number of HTTP GETs of the given URL in a trace. -/
def countGet (u : Str) (tr : List Event) : Nat := (tr.filter (isGetEv u)).length

/-- Whether an event is a recorded outcome (of any kind). -/
def isOutcomeEv : Event → Bool
  | .outcome _ _ => true
  | _ => false

/-- Number of recorded outcomes in a trace. -/
def countOutcomes (tr : List Event) : Nat := (tr.filter isOutcomeEv).length

/-- Some occurrence of `a` in the list has a later occurrence of `b`. -/
def occursBefore (a b : Event) : List Event → Bool
  | [] => false
  | x :: t => (x == a && t.contains b) || occursBefore a b t

/-- The in-document anchor branch of the build variant
(`if link.get('href').startswith("#")`): match against the current `doc`
variable, print (`ok` only under `-v`), count a failure on mismatch. -/
def anchorBranch (verbose : Bool) (st : LoopSt) (h : Str) : List Event × StepRes LoopSt :=
  if truthy (match_header h st.doc) then
    ((if verbose then [Event.okLine h] else []) ++ [Event.outcome h .valid], .next st)
  else
    ([Event.failLine h, Event.outcome h .broken],
      .next { st with result := st.result + 1 })

/-- The remote branch: `resp = get(url)` (a network-level failure raises out
of the loop), then the politeness `sleep(1)` when `"github" in url`, then the
status test: non-200 increments `result`, 200 prints only under `-v`. -/
def remoteCheck (env : Env) (verbose : Bool) (st : LoopSt) (u : Str) :
    List Event × StepRes LoopSt :=
  match env.http u with
  | .raise => ([Event.get u], .raised st)
  | .resp s =>
    let pre := Event.get u :: (if isSub (sc "github") u then [Event.sleep 1] else [])
    if s ≠ 200 then
      (pre ++ [Event.statusLine u s, Event.outcome u .broken],
        .next { st with result := st.result + 1 })
    else
      (pre ++ (if verbose then [Event.statusLine u s] else [])
        ++ [Event.outcome u .valid], .next st)

/-- The local-path check on extracted `(target_file, anchor)`: resolve
relative to `dirname(file)`, test existence, and when an anchor is present
and the target is a file, parse it (reassigning the `doc` variable!) and run
`match_header` against it. -/
def localCheck (env : Env) (file : Str) (verbose : Bool) (st : LoopSt)
    (u tf anc : Str) : List Event × StepRes LoopSt :=
  let key := env.abspath (pyDirname file ++ '/' :: tf)
  if env.fsExists key then
    if anc ≠ [] then
      if env.fsIsFile key then
        let d := env.readDoc key
        if truthy (match_header ('#' :: anc) d) then
          ((if verbose then [Event.okLine u] else []) ++ [Event.outcome u .valid],
            .next { st with doc := d })
        else
          ([Event.failLine u, Event.outcome u .broken],
            .next { st with result := st.result + 1, doc := d })
      else
        ([Event.failLine u, Event.outcome u .broken],
          .next { st with result := st.result + 1 })
    else
      ((if verbose then [Event.okLine u] else []) ++ [Event.outcome u .valid], .next st)
  else
    ([Event.failLine u, Event.outcome u .broken],
      .next { st with result := st.result + 1 })

/-- The local branch: split `url` on `'#'` via the anchor regex when it
contains one (`[0]` on an empty `findall` raises `IndexError`), otherwise the
whole string is the target path with an empty anchor. -/
def localBranch (env : Env) (file : Str) (verbose : Bool) (st : LoopSt) (u : Str) :
    List Event × StepRes LoopSt :=
  if u.contains '#' then
    match findSplit u with
    | none => ([], .raised st)
    | some (tf, anc) => localCheck env file verbose st u tf anc
  else
    localCheck env file verbose st u u []

/-- The section from `if validators.url(url):` to the end of the loop body. -/
def urlSection (env : Env) (file : Str) (verbose : Bool) (st : LoopSt) (u : Str) :
    List Event × StepRes LoopSt :=
  if env.isValidUrl u then remoteCheck env verbose st u
  else localBranch env file verbose st u

/-- One iteration of the build variant's `for link in doc.find_all('a')`:
skip absent hrefs, dispatch in-document anchors, regex-excluded URLs
(skipped, logged only under `-v`), and everything else to the URL section. -/
def step (env : Env) (file : Str) (verbose : Bool) (um : Option (Str → Bool))
    (st : LoopSt) (href : Option Str) : List Event × StepRes LoopSt :=
  match href with
  | none => ([], .next st)
  | some h =>
    if startsHash h then anchorBranch verbose st h
    else if exclMatch um h then
      ((if verbose then [Event.noteLine] else []) ++ [Event.outcome h .skipped], .next st)
    else urlSection env file verbose st h

/-- Run a per-link step function over the links in document order, stopping
when an iteration raises; returns the trace, the final state, and whether an
exception escaped the loop. -/
def foldLinks {σ : Type} (f : σ → Option Str → List Event × StepRes σ) :
    List (Option Str) → σ → List Event × σ × Bool
  | [], st => ([], st, false)
  | l :: ls, st =>
    match f st l with
    | (evs, .raised st') => (evs, st', true)
    | (evs, .next st') =>
      let r := foldLinks f ls st'
      (evs ++ r.1, r.2)

/-- Observable result of one run: the event trace, the value passed to
`sys.exit`, and whether an exception was caught by the outer handler. -/
structure RunOut where
  trace : List Event
  code : Nat
  raised : Bool
deriving DecidableEq

/-- The `try:` block of the build variant: reading/parsing the input file
(`docRes` is `.error` when `open`/parse raises — caught, printed, and the
run exits with the current `result`, still 0), then the per-link loop; an
exception escaping the loop is caught by the same handler and the run exits
with the accumulated `result`. -/
def runTry (env : Env) (file : Str) (verbose : Bool) (um : Option (Str → Bool))
    (docRes : Except Unit Doc) : RunOut :=
  match docRes with
  | .error _ => { trace := [Event.noteLine], code := 0, raised := true }
  | .ok doc =>
    let r := foldLinks (step env file verbose um) doc.links { result := 0, doc := doc }
    { trace := Event.noteLine :: r.1, code := r.2.1.result, raised := r.2.2 }

/-- Top level of the build variant.  `cfgFile` models the `config.yml`
loading block, which runs before the `try:` boundary: `none` when the file is
absent, `some (.error ())` when loading raises (malformed YAML, missing key)
— that exception is unhandled, so the whole run is `.error` (a crash).
Otherwise: the non-Markdown filename check exits 0, a path exclusion exits 0,
and the `try:` block runs. -/
def mainBuild (env : Env) (file : Str) (verbose : Bool)
    (cfgFile : Option (Except Unit CfgData)) (docRes : Except Unit Doc) :
    Except Unit RunOut :=
  if isSub (sc ".md") file = false then
    .ok { trace := [Event.noteLine], code := 0, raised := false }
  else
    match cfgFile with
    | some (.error e) => .error e
    | some (.ok cfg) =>
      if cfg.pathExclusions.any (fun p => isSub p file) then
        .ok { trace := [Event.noteLine], code := 0, raised := false }
      else .ok (runTry env file verbose cfg.urlMatch docRes)
    | none => .ok (runTry env file verbose none docRes)

/-- The process exit status of a completed run; `none` when the run crashed
with an unhandled exception (no `sys.exit(result)` is reached). -/
def exitCode : Except Unit RunOut → Option Nat
  | .ok o => some o.code
  | .error _ => none

/-- The run's observables when it did not crash, `none` on a crash. -/
def toRunOut : Except Unit RunOut → Option RunOut
  | .ok o => some o
  | .error _ => none

/-- Loop state of the workflow variant
(`.github/workflows/check-links/check-links.py`): `result`, the reassignable
`doc` variable, and the loop-carried `url` variable, which is unbound
(`none`) until a non-anchor link assigns it. -/
structure WSt where
  result : Nat
  doc : Doc
  url : Option Str

/-- The workflow variant's anchor branch: prints are unconditional (no
verbosity flag), and — crucially — there is no `continue`, so control falls
through to the URL section afterwards. -/
def anchorWF (st : WSt) (h : Str) : List Event × WSt :=
  if truthy (match_header h st.doc) then
    ([Event.okLine h, Event.outcome h .valid], st)
  else
    ([Event.failLine h, Event.outcome h .broken], { st with result := st.result + 1 })

/-- The tail of every workflow-variant iteration: `if validators.url(url)`
and the local branch run on the current value of the `url` variable; if it
was never assigned this is a `NameError` (raised).  The section's logic and
prints coincide with the build variant's `urlSection` at `verbose = true`
(that variant's prints are unconditional). -/
def wfTail (env : Env) (file : Str) (st : WSt) (evs1 : List Event) :
    List Event × StepRes WSt :=
  match st.url with
  | none => (evs1, .raised st)
  | some u =>
    match urlSection env file true { result := st.result, doc := st.doc } u with
    | (evs2, .next st') =>
      (evs1 ++ evs2, .next { result := st'.result, doc := st'.doc, url := st.url })
    | (evs2, .raised st') =>
      (evs1 ++ evs2, .raised { result := st'.result, doc := st'.doc, url := st.url })

/-- One iteration of the workflow variant's per-link loop: absent hrefs are
skipped; anchor links run the anchor branch and then fall through to the URL
section with the stale `url`; other links assign `url` and run the section. -/
def stepWF (env : Env) (file : Str) (st : WSt) (href : Option Str) :
    List Event × StepRes WSt :=
  match href with
  | none => ([], .next st)
  | some h =>
    if startsHash h then
      let p := anchorWF st h
      wfTail env file p.2 p.1
    else
      wfTail env file { st with url := some h } []

/-- The workflow variant's per-link loop over a parsed document, from an
empty counter and an unbound `url`. -/
def runWF (env : Env) (file : Str) (doc : Doc) : RunOut :=
  let r := foldLinks (stepWF env file) doc.links { result := 0, doc := doc, url := none }
  { trace := r.1, code := r.2.1.result, raised := r.2.2 }

/-- Modelled from the spec: the Slug Matcher algorithm exactly as §4.1 words
it — candidate slug: strip leading `#` characters, trim surrounding
whitespace, lowercase, replace spaces with hyphens; heading set: lowercase
the heading text, trim, replace spaces with hyphens; return membership. -/
def matchesSpec (anchor : Str) (d : Doc) : Bool :=
  (d.headings.map (fun h => replaceSpace (pyStrip (pyLower h)))).contains
    (replaceSpace (pyLower (pyStrip (anchor.dropWhile (fun c => c == '#')))))

/-- The Slug Matcher contract amended to the code's behaviour: the candidate
slug is read only up to the first newline, and each heading is normalized in
the code's order — spaces replaced by hyphens first, then lowercased, then
trimmed. -/
def matchesSpecAmended (anchor : Str) (d : Doc) : Bool :=
  (d.headings.map (fun h => pyStrip (pyLower (replaceSpace h)))).contains
    (replaceSpace (pyLower (pyStrip
      ((anchor.dropWhile (fun c => c == '#')).takeWhile (fun c => !(c == '\n'))))))

/-- Concrete fixture: an environment where nothing exists on the filesystem,
no string is a valid absolute URL, and every request returns 200. -/
def envTriv : Env :=
  { http := fun _ => HttpRes.resp 200
    isValidUrl := fun _ => false
    fsExists := fun _ => false
    fsIsFile := fun _ => false
    readDoc := fun _ => Doc.mk [] []
    abspath := fun s => s }

/-- Concrete fixture: a one-link document whose in-document anchor matches. -/
def docTriv : Doc := Doc.mk [sc "hi"] [some (sc "#hi")]

/-- Concrete fixture for the stale-`doc` scenario: `/b.md` exists, is a file,
and parses to a document whose only heading is `bhead`. -/
def envStale : Env :=
  { http := fun _ => HttpRes.resp 200
    isValidUrl := fun _ => false
    fsExists := fun s => s == sc "/b.md"
    fsIsFile := fun s => s == sc "/b.md"
    readDoc := fun s => if s == sc "/b.md" then Doc.mk [sc "bhead"] [] else Doc.mk [] []
    abspath := fun s => s }

/-- Concrete fixture: `a.md` has heading `ahead` and two links — a local
anchor-qualified link into `b.md`, then an in-document anchor `#ahead`. -/
def docStale : Doc := Doc.mk [sc "ahead"] [some (sc "b.md#bhead"), some (sc "#ahead")]

/-- Concrete fixture: the only valid URL raises a connection error. -/
def envConn : Env :=
  { http := fun _ => HttpRes.raise
    isValidUrl := fun s => s == sc "http://x"
    fsExists := fun _ => false
    fsIsFile := fun _ => false
    readDoc := fun _ => Doc.mk [] []
    abspath := fun s => s }

/-- Concrete fixture: a remote link that will raise, followed by a local link
to a missing file. -/
def docConn : Doc := Doc.mk [] [some (sc "http://x"), some (sc "nope.md")]

/-- Concrete fixture: every request returns 404 and the one remote URL is
valid. -/
def envWf : Env :=
  { http := fun _ => HttpRes.resp 404
    isValidUrl := fun s => s == sc "http://bad/x"
    fsExists := fun _ => false
    fsIsFile := fun _ => false
    readDoc := fun _ => Doc.mk [] []
    abspath := fun s => s }

/-- Concrete fixture: a broken remote link followed by a matching in-document
anchor. -/
def docWf : Doc := Doc.mk [sc "ahead"] [some (sc "http://bad/x"), some (sc "#ahead")]

/-- Concrete fixture: every string is a valid URL and every request returns
404. -/
def envGh : Env :=
  { http := fun _ => HttpRes.resp 404
    isValidUrl := fun _ => true
    fsExists := fun _ => false
    fsIsFile := fun _ => false
    readDoc := fun _ => Doc.mk [] []
    abspath := fun s => s }

/-- Concrete fixture: an empty loop state over an empty document. -/
def stTriv : LoopSt := LoopSt.mk 0 (Doc.mk [] [])

theorem countBroken_append (a b : List Event) :
    countBroken (a ++ b) = countBroken a + countBroken b := by
  simp [countBroken, List.filter_append]

theorem anchorBranch_result (v : Bool) (st : LoopSt) (h : Str) :
    (stResOf (anchorBranch v st h).2).result
      = st.result + countBroken (anchorBranch v st h).1 := by
  simp only [anchorBranch]
  split_ifs <;> simp [stResOf, countBroken, isBrokenEv,
    List.filter_cons, List.filter_nil, List.filter_append]

theorem remoteCheck_result (env : Env) (v : Bool) (st : LoopSt) (u : Str) :
    (stResOf (remoteCheck env v st u).2).result
      = st.result + countBroken (remoteCheck env v st u).1 := by
  simp only [remoteCheck]
  split
  · simp [stResOf, countBroken, isBrokenEv, List.filter_cons, List.filter_nil]
  · split_ifs <;> simp [stResOf, countBroken, isBrokenEv,
      List.filter_cons, List.filter_nil, List.filter_append]

theorem localCheck_result (env : Env) (file : Str) (v : Bool) (st : LoopSt)
    (u tf anc : Str) :
    (stResOf (localCheck env file v st u tf anc).2).result
      = st.result + countBroken (localCheck env file v st u tf anc).1 := by
  simp only [localCheck]
  split_ifs <;> simp [stResOf, countBroken, isBrokenEv,
    List.filter_cons, List.filter_nil, List.filter_append]

theorem localBranch_result (env : Env) (file : Str) (v : Bool) (st : LoopSt) (u : Str) :
    (stResOf (localBranch env file v st u).2).result
      = st.result + countBroken (localBranch env file v st u).1 := by
  simp only [localBranch]
  split
  · split
    · simp [stResOf, countBroken]
    · exact localCheck_result ..
  · exact localCheck_result ..

theorem urlSection_result (env : Env) (file : Str) (v : Bool) (st : LoopSt) (u : Str) :
    (stResOf (urlSection env file v st u).2).result
      = st.result + countBroken (urlSection env file v st u).1 := by
  simp only [urlSection]
  split
  · exact remoteCheck_result ..
  · exact localBranch_result ..

theorem step_result (env : Env) (file : Str) (v : Bool) (um : Option (Str → Bool))
    (st : LoopSt) (href : Option Str) :
    (stResOf (step env file v um st href).2).result
      = st.result + countBroken (step env file v um st href).1 := by
  cases href with
  | none => simp [step, stResOf, countBroken]
  | some h =>
    simp only [step]
    split
    · exact anchorBranch_result ..
    · split
      · split_ifs <;> simp [stResOf, countBroken, isBrokenEv,
          List.filter_cons, List.filter_nil, List.filter_append]
      · exact urlSection_result ..

theorem foldLinks_result {σ : Type} (res : σ → Nat)
    (f : σ → Option Str → List Event × StepRes σ)
    (H : ∀ st l, res (stResOf (f st l).2) = res st + countBroken (f st l).1) :
    ∀ (ls : List (Option Str)) (st : σ),
      res (foldLinks f ls st).2.1 = res st + countBroken (foldLinks f ls st).1
  | [], st => by simp [foldLinks, countBroken]
  | l :: ls, st => by
    have h := H st l
    rcases hf : f st l with ⟨evs, sr⟩
    rw [hf] at h
    cases sr with
    | raised st' =>
      simp only [stResOf] at h
      simp [foldLinks, hf, h]
    | next st' =>
      have ih := foldLinks_result res f H ls st'
      simp only [stResOf] at h
      simp [foldLinks, hf, countBroken_append, ih, h]
      omega

theorem foldLinks_congr {σ : Type}
    (f g : σ → Option Str → List Event × StepRes σ)
    (H : ∀ st l, (f st l).2 = (g st l).2) :
    ∀ (ls : List (Option Str)) (st : σ),
      (foldLinks f ls st).2 = (foldLinks g ls st).2
  | [], _ => rfl
  | l :: ls, st => by
    have h := H st l
    rcases hf : f st l with ⟨evs, sr⟩
    rcases hg : g st l with ⟨evs', sr'⟩
    rw [hf, hg] at h
    simp only at h
    subst h
    cases sr with
    | raised st' => simp [foldLinks, hf, hg]
    | next st' =>
      have ih := foldLinks_congr f g H ls st'
      simp [foldLinks, hf, hg, ih]

theorem anchorBranch_verbose (v : Bool) (st : LoopSt) (h : Str) :
    (anchorBranch v st h).2 = (anchorBranch false st h).2 := by
  simp only [anchorBranch]
  split_ifs <;> rfl

theorem remoteCheck_verbose (env : Env) (v : Bool) (st : LoopSt) (u : Str) :
    (remoteCheck env v st u).2 = (remoteCheck env false st u).2 := by
  simp only [remoteCheck]
  split
  · rfl
  · split_ifs <;> rfl

theorem localCheck_verbose (env : Env) (file : Str) (v : Bool) (st : LoopSt)
    (u tf anc : Str) :
    (localCheck env file v st u tf anc).2 = (localCheck env file false st u tf anc).2 := by
  simp only [localCheck]
  split_ifs <;> rfl

theorem localBranch_verbose (env : Env) (file : Str) (v : Bool) (st : LoopSt) (u : Str) :
    (localBranch env file v st u).2 = (localBranch env file false st u).2 := by
  simp only [localBranch]
  split
  · split
    · rfl
    · exact localCheck_verbose ..
  · exact localCheck_verbose ..

theorem urlSection_verbose (env : Env) (file : Str) (v : Bool) (st : LoopSt) (u : Str) :
    (urlSection env file v st u).2 = (urlSection env file false st u).2 := by
  simp only [urlSection]
  split
  · exact remoteCheck_verbose ..
  · exact localBranch_verbose ..

theorem step_verbose (env : Env) (file : Str) (v : Bool) (um : Option (Str → Bool))
    (st : LoopSt) (href : Option Str) :
    (step env file v um st href).2 = (step env file false um st href).2 := by
  cases href with
  | none => rfl
  | some h =>
    simp only [step]
    split
    · exact anchorBranch_verbose ..
    · split
      · rfl
      · exact urlSection_verbose ..

theorem runTry_code (env : Env) (file : Str) (v : Bool) (um : Option (Str → Bool))
    (docRes : Except Unit Doc) :
    (runTry env file v um docRes).code = countBroken (runTry env file v um docRes).trace := by
  cases docRes with
  | error e => simp [runTry, countBroken, isBrokenEv, List.filter_cons, List.filter_nil]
  | ok doc =>
    simp only [runTry]
    have h := foldLinks_result LoopSt.result (step env file v um)
      (fun st l => step_result env file v um st l) doc.links { result := 0, doc := doc }
    simp only [countBroken, List.filter_cons] at h ⊢
    simpa [isBrokenEv] using h

theorem mainBuild_code (env : Env) (file : Str) (v : Bool)
    (cfgFile : Option (Except Unit CfgData)) (docRes : Except Unit Doc) (out : RunOut)
    (hok : mainBuild env file v cfgFile docRes = Except.ok out) :
    out.code = countBroken out.trace := by
  unfold mainBuild at hok
  split at hok
  · injection hok with h
    subst h
    simp [countBroken, isBrokenEv, List.filter_cons, List.filter_nil]
  · split at hok
    · exact absurd hok (by simp)
    · split at hok
      · injection hok with h
        subst h
        simp [countBroken, isBrokenEv, List.filter_cons, List.filter_nil]
      · injection hok with h
        subst h
        exact runTry_code ..
    · injection hok with h
      subst h
      exact runTry_code ..

theorem mainBuild_ok_of_cfg (env : Env) (file : Str) (v : Bool)
    (cfgFile : Option (Except Unit CfgData)) (docRes : Except Unit Doc)
    (hcfg : ∀ e, cfgFile ≠ some (Except.error e)) :
    ∃ out, mainBuild env file v cfgFile docRes = Except.ok out := by
  unfold mainBuild
  split
  · exact ⟨_, rfl⟩
  · split
    · exact absurd rfl (hcfg _)
    · split
      · exact ⟨_, rfl⟩
      · exact ⟨_, rfl⟩
    · exact ⟨_, rfl⟩

theorem runTry_verbose (env : Env) (file : Str) (v : Bool) (um : Option (Str → Bool))
    (docRes : Except Unit Doc) :
    (runTry env file v um docRes).code = (runTry env file false um docRes).code := by
  cases docRes with
  | error e => rfl
  | ok doc =>
    simp only [runTry]
    have h := foldLinks_congr (step env file v um) (step env file false um)
      (fun st l => step_verbose env file v um st l) doc.links { result := 0, doc := doc }
    rw [h]

theorem pyLowerChar_ne_space (c : Char) (hc : ¬ c = ' ') : ¬ pyLowerChar c = ' ' := by
  unfold pyLowerChar
  split <;> first | decide | exact hc

theorem pyLowerChar_isSpace (c : Char) : isPySpace (pyLowerChar c) = isPySpace c := by
  unfold pyLowerChar
  split <;> rfl

theorem replChar_lower_comm (c : Char) :
    pyLowerChar (replChar c) = replChar (pyLowerChar c) := by
  by_cases hc : c = ' '
  · subst hc; decide
  · have h1 : replChar c = c := by simp [replChar, beq_iff_eq, hc]
    have h2 : ¬ pyLowerChar c = ' ' := pyLowerChar_ne_space c hc
    rw [h1]
    simp [replChar, beq_iff_eq, h2]

theorem replChar_isSpace (c : Char) (hc : isPySpace c = false) :
    isPySpace (replChar c) = false := by
  have hne : ¬ c = ' ' := by
    intro h
    subst h
    simp [isPySpace] at hc
  simp [replChar, beq_iff_eq, hne, hc]

theorem dropWhile_eq_self_of_head (p : Char → Bool) (l : Str)
    (h : ∀ c, l.head? = some c → p c = false) : l.dropWhile p = l := by
  cases l with
  | nil => rfl
  | cons a t =>
    rw [List.dropWhile_cons, if_neg]
    simp [h a rfl]

theorem pyStrip_eq_self_of (l : Str)
    (h1 : ∀ c, l.head? = some c → isPySpace c = false)
    (h2 : ∀ c, l.getLast? = some c → isPySpace c = false) :
    pyStrip l = l := by
  unfold pyStrip
  rw [dropWhile_eq_self_of_head _ _ h1]
  rw [dropWhile_eq_self_of_head]
  · exact List.reverse_reverse l
  · intro c hc
    exact h2 c (by rwa [List.head?_reverse] at hc)

theorem pyStrip_length_le (l : Str) :
    (pyStrip l).length ≤ (l.dropWhile isPySpace).length := by
  unfold pyStrip
  rw [List.length_reverse]
  calc ((l.dropWhile isPySpace).reverse.dropWhile isPySpace).length
      ≤ (l.dropWhile isPySpace).reverse.length :=
        (List.dropWhile_sublist _).length_le
    _ = (l.dropWhile isPySpace).length := List.length_reverse _

theorem pyStrip_head (l : Str) (h : pyStrip l = l) :
    ∀ c, l.head? = some c → isPySpace c = false := by
  intro c hc
  by_contra hsp
  rw [Bool.not_eq_false] at hsp
  cases l with
  | nil => simp at hc
  | cons a t =>
    have ha : a = c := by simpa using hc
    subst ha
    have hdrop : (a :: t).dropWhile isPySpace = t.dropWhile isPySpace := by
      rw [List.dropWhile_cons, if_pos hsp]
    have hlen : (pyStrip (a :: t)).length ≤ t.length := by
      calc (pyStrip (a :: t)).length
          ≤ ((a :: t).dropWhile isPySpace).length := pyStrip_length_le _
        _ = (t.dropWhile isPySpace).length := by rw [hdrop]
        _ ≤ t.length := (List.dropWhile_sublist _).length_le
    rw [h] at hlen
    simp at hlen

theorem dropWhile_eq_self_of_strip (l : Str) (h : pyStrip l = l) :
    l.dropWhile isPySpace = l := by
  have hle : (l.dropWhile isPySpace).length ≤ l.length := (List.dropWhile_sublist _).length_le
  have hge : l.length ≤ (l.dropWhile isPySpace).length := by
    have := pyStrip_length_le l
    rw [h] at this
    exact this
  exact (List.dropWhile_sublist isPySpace).eq_of_length (le_antisymm hle hge)

theorem pyStrip_last (l : Str) (h : pyStrip l = l) :
    ∀ c, l.getLast? = some c → isPySpace c = false := by
  intro c hc
  have hdrop : l.dropWhile isPySpace = l := dropWhile_eq_self_of_strip l h
  have hrev : l.reverse.dropWhile isPySpace = l.reverse := by
    have hstrip : (l.reverse.dropWhile isPySpace).reverse = l := by
      have hh := h
      unfold pyStrip at hh
      rwa [hdrop] at hh
    calc l.reverse.dropWhile isPySpace
        = ((l.reverse.dropWhile isPySpace).reverse).reverse := (List.reverse_reverse _).symm
      _ = l.reverse := by rw [hstrip]
  by_contra hsp
  rw [Bool.not_eq_false] at hsp
  have hhead : l.reverse.head? = some c := by rw [List.head?_reverse]; exact hc
  cases hrevl : l.reverse with
  | nil => rw [hrevl] at hhead; simp at hhead
  | cons a t =>
    rw [hrevl] at hhead
    have ha : a = c := by simpa using hhead
    subst ha
    rw [hrevl] at hrev
    rw [List.dropWhile_cons, if_pos hsp] at hrev
    have hlen : (t.dropWhile isPySpace).length ≤ t.length := (List.dropWhile_sublist _).length_le
    rw [hrev] at hlen
    simp at hlen

theorem lower_repl_comm (s : Str) :
    pyLower (replaceSpace s) = replaceSpace (pyLower s) := by
  simp only [pyLower, replaceSpace, List.map_map]
  exact List.map_congr_left (fun a _ => replChar_lower_comm a)

theorem headingSlug_of_stripped (t : Str) (hstrip : pyStrip t = t) :
    pyStrip (pyLower (replaceSpace t)) = replaceSpace (pyLower t) := by
  rw [lower_repl_comm]
  apply pyStrip_eq_self_of
  · intro c hc
    rw [replaceSpace, pyLower, List.map_map, List.head?_map] at hc
    cases ht : t.head? with
    | none => rw [ht] at hc; simp [Option.map] at hc
    | some a =>
      rw [ht] at hc
      simp only [Option.map] at hc
      have ha : isPySpace a = false := pyStrip_head t hstrip a ht
      have hceq : c = replChar (pyLowerChar a) := by simpa using hc.symm
      subst hceq
      exact replChar_isSpace _ (by rw [pyLowerChar_isSpace]; exact ha)
  · intro c hc
    rw [replaceSpace, pyLower, List.map_map, List.getLast?_map] at hc
    cases ht : t.getLast? with
    | none => rw [ht] at hc; simp [Option.map] at hc
    | some a =>
      rw [ht] at hc
      simp only [Option.map] at hc
      have ha : isPySpace a = false := pyStrip_last t hstrip a ht
      have hceq : c = replChar (pyLowerChar a) := by simpa using hc.symm
      subst hceq
      exact replChar_isSpace _ (by rw [pyLowerChar_isSpace]; exact ha)

theorem takeWhile_no_newline (t : Str) (hnl : '\n' ∉ t) :
    t.takeWhile (fun c => !(c == '\n')) = t := by
  apply List.takeWhile_eq_self_iff.mpr
  intro x hx
  have hne : ¬ x = '\n' := fun he => hnl (he ▸ hx)
  simp [beq_iff_eq, hne]

/-- C1: for every run of the build variant whose per-link loop runs to
completion without an exception escaping it, the value passed to `sys.exit`
equals the number of links whose recorded outcome was Broken; Valid and
Skipped outcomes contribute nothing to it. -/
theorem c1_exit_equals_broken (env : Env) (file : Str) (v : Bool)
    (cfgFile : Option (Except Unit CfgData)) (docRes : Except Unit Doc) (out : RunOut)
    (hok : mainBuild env file v cfgFile docRes = Except.ok out)
    (_hdone : out.raised = false) :
    out.code = countBroken out.trace :=
  mainBuild_code env file v cfgFile docRes out hok

/-- C1 witness: the theorem applied to a concrete one-link run that completes
with exit status 0. -/
theorem c1_exit_equals_broken_witness :
    (RunOut.mk [Event.noteLine, Event.outcome (sc "#hi") Outcome.valid] 0 false).code
      = countBroken
          (RunOut.mk [Event.noteLine, Event.outcome (sc "#hi") Outcome.valid] 0 false).trace :=
  c1_exit_equals_broken envTriv (sc "a.md") false none (Except.ok docTriv) _ (by rfl) rfl

/-- C2 (code bug): after validating the local anchor-qualified link
`b.md#bhead`, the script's `doc` variable holds `b.md`'s parse, so the
following in-document anchor `#ahead` is matched against `b.md`'s headings —
not against `a.md`, whose heading `ahead` should make it Valid — and the run
exits 1 instead of 0. -/
theorem c2_stale_document_eval :
    toRunOut (mainBuild envStale (sc "a.md") false none (Except.ok docStale))
      = some (RunOut.mk
          [Event.noteLine,
           Event.outcome (sc "b.md#bhead") Outcome.valid,
           Event.failLine (sc "#ahead"),
           Event.outcome (sc "#ahead") Outcome.broken] 1 false) := by
  decide

/-- C3 counterexample: a connection error on the first remote link is not
mapped to a non-200 outcome — it escapes the loop, nothing is added to the
broken count, and the second (broken local) link is never examined: the run
exits 0 where the claim demands a positive count. -/
theorem c3_conn_error_not_counted :
    toRunOut (mainBuild envConn (sc "a.md") false none (Except.ok docConn))
      = some (RunOut.mk [Event.noteLine, Event.get (sc "http://x")] 0 true) := by
  decide

/-- C3 (amended): for every remote URL that is checked, a non-200 HTTP
response increments the broken count by exactly one, is never retried (one
GET), and the loop continues with the next link; a network-level failure is
not counted — the exception escapes the loop (one GET, no outcome, counter
unchanged). -/
theorem c3_step_behaviour (env : Env) (file : Str) (v : Bool)
    (um : Option (Str → Bool)) (st : LoopSt) (h : Str)
    (h1 : startsHash h = false) (h2 : exclMatch um h = false)
    (h3 : env.isValidUrl h = true) :
    (env.http h = HttpRes.raise →
      step env file v um st (some h) = ([Event.get h], StepRes.raised st)) ∧
    (∀ s, env.http h = HttpRes.resp s → s ≠ 200 →
      (step env file v um st (some h)).2
          = StepRes.next { st with result := st.result + 1 } ∧
      countGet h (step env file v um st (some h)).1 = 1 ∧
      countBroken (step env file v um st (some h)).1 = 1) := by
  constructor
  · intro hr
    simp [step, h1, h2, h3, urlSection, remoteCheck, hr]
  · intro s hs hs200
    by_cases hg : isSub (sc "github") h = true <;>
      simp [step, h1, h2, h3, urlSection, remoteCheck, hs, hs200, hg,
        countGet, countBroken, isGetEv, isBrokenEv,
        List.filter_cons, List.filter_nil, List.filter_append]

/-- C3 witness: the theorem applied to a concrete 404 response. -/
theorem c3_step_behaviour_witness :
    (step envGh (sc "a.md") false none stTriv (some (sc "http://x"))).2
        = StepRes.next { stTriv with result := stTriv.result + 1 } ∧
    countGet (sc "http://x")
        (step envGh (sc "a.md") false none stTriv (some (sc "http://x"))).1 = 1 ∧
    countBroken (step envGh (sc "a.md") false none stTriv (some (sc "http://x"))).1 = 1 :=
  (c3_step_behaviour envGh (sc "a.md") false none stTriv (sc "http://x")
    (by decide) rfl rfl).2 404 rfl (by decide)

/-- C4 counterexample: when loading the exclusion configuration raises, the
exception is thrown before the `try:` boundary and the run crashes without
any defined exit status, contradicting the claim that such errors are caught
at the top boundary. -/
theorem c4_config_error_crashes :
    toRunOut (mainBuild envTriv (sc "a.md") false (some (Except.error ()))
      (Except.ok docTriv)) = none := by
  decide

/-- C4 (amended): whenever the exclusion-configuration loading does not
raise, the run never crashes — any exception inside the file processing is
caught at the `try:` boundary and the process exits with the failure count
accumulated so far (the Broken outcomes recorded up to that point). -/
theorem c4_caught_except_config (env : Env) (file : Str) (v : Bool)
    (cfgFile : Option (Except Unit CfgData)) (docRes : Except Unit Doc)
    (hcfg : ∀ e, cfgFile ≠ some (Except.error e)) :
    ∃ out, mainBuild env file v cfgFile docRes = Except.ok out ∧
      out.code = countBroken out.trace := by
  obtain ⟨out, hout⟩ := mainBuild_ok_of_cfg env file v cfgFile docRes hcfg
  exact ⟨out, hout, mainBuild_code env file v cfgFile docRes out hout⟩

/-- C4 witness: the theorem applied to a run whose loop does raise (a
connection error): the run still ends in `sys.exit` with the accumulated
count. -/
theorem c4_caught_except_config_witness :
    ∃ out, mainBuild envConn (sc "a.md") false none (Except.ok docConn) = Except.ok out ∧
      out.code = countBroken out.trace :=
  c4_caught_except_config envConn (sc "a.md") false none (Except.ok docConn)
    (fun _ h => Option.noConfusion h)

/-- C5 (code bug): in the workflow variant the anchor branch has no
`continue`, so after the matching anchor `#ahead` records its Valid outcome
the iteration falls through and re-dispatches the stale `url` from the
previous link to the remote checker: the broken 404 link is fetched and
counted twice and the run exits 2 instead of 1. -/
theorem c5_workflow_double_dispatch :
    runWF envWf (sc "a.md") docWf
      = RunOut.mk
          [Event.get (sc "http://bad/x"), Event.statusLine (sc "http://bad/x") 404,
           Event.outcome (sc "http://bad/x") Outcome.broken,
           Event.okLine (sc "#ahead"), Event.outcome (sc "#ahead") Outcome.valid,
           Event.get (sc "http://bad/x"), Event.statusLine (sc "http://bad/x") 404,
           Event.outcome (sc "http://bad/x") Outcome.broken] 2 false := by
  decide

/-- C6 counterexample: a heading whose text ends in a space is normalized to
a slug ending in a hyphen, while the anchor built from the same text is
stripped first — `match_header` rejects its own heading. -/
theorem c6_trailing_space_heading :
    (sc "a ") ∈ (Doc.mk [sc "a "] []).headings ∧
    truthy (match_header ('#' :: sc "a ") (Doc.mk [sc "a "] [])) = false := by
  decide

/-- C6 (amended): for every document and heading whose text is unchanged by
whitespace stripping, does not begin with a `#`, and contains no newline, the
anchor `"#" + H.text` matches the document, regardless of case and of
internal spaces. -/
theorem c6_heading_matches (d : Doc) (t : Str) (hmem : t ∈ d.headings)
    (hstrip : pyStrip t = t) (hhash : t.head? ≠ some '#') (hnl : '\n' ∉ t) :
    truthy (match_header ('#' :: t) d) = true := by
  have hdrop : ('#' :: t).dropWhile (fun c => c == '#') = t := by
    rw [List.dropWhile_cons, if_pos (by decide)]
    apply dropWhile_eq_self_of_head
    intro c hc
    have hne : ¬ c = '#' := fun he => hhash (he ▸ hc)
    simp [beq_iff_eq, hne]
  have hcapture : ((('#' :: t).dropWhile (fun c => c == '#')).takeWhile
      (fun c => !(c == '\n'))) = t := by
    rw [hdrop]
    exact takeWhile_no_newline t hnl
  simp only [match_header, findAnchors, startsHash]
  rw [if_pos (by decide)]
  simp only [hcapture, truthy, Option.getD_some]
  have hslug : pyStrip (pyLower (replaceSpace t))
      = replaceSpace (pyLower (pyStrip t)) := by
    rw [hstrip]
    exact headingSlug_of_stripped t hstrip
  have hm : replaceSpace (pyLower (pyStrip t))
      ∈ d.headings.map (fun h => pyStrip (pyLower (replaceSpace h))) := by
    rw [← hslug]
    exact List.mem_map_of_mem _ hmem
  exact List.elem_iff.mpr hm

/-- C6 witness: the theorem applied to a mixed-case heading with an internal
space. -/
theorem c6_heading_matches_witness :
    truthy (match_header ('#' :: sc "My Heading") (Doc.mk [sc "My Heading"] [])) = true :=
  c6_heading_matches (Doc.mk [sc "My Heading"] []) (sc "My Heading")
    (by decide) (by decide) (by decide) (by decide)

/-- C7 counterexample: for the heading `" a"`, the spec's normalization order
(lowercase, trim, then replace) yields slug `a`, so the spec-side membership
holds for anchor `#a`; the code normalizes the heading by replacing spaces
first and keeps the leading hyphen, so `match_header` returns false — the
claimed iff fails. -/
theorem c7_spec_normalization_differs :
    truthy (match_header (sc "#a") (Doc.mk [sc " a"] [])) = false ∧
    matchesSpec (sc "#a") (Doc.mk [sc " a"] []) = true := by
  decide

/-- C7 (amended): for every anchor beginning with `#` and every document,
`match_header` returns true exactly when the candidate slug (text after the
leading `#` run up to the first newline, trimmed, lowercased, spaces to
hyphens) is a member of the heading-slug set built by replacing spaces with
hyphens first, then lowercasing, then trimming. -/
theorem c7_refines (a : Str) (d : Doc) (h : startsHash a = true) :
    truthy (match_header a d) = matchesSpecAmended a d := by
  simp only [match_header, findAnchors, h, if_true, truthy, Option.getD_some,
    matchesSpecAmended]

/-- C7 witness: the theorem applied to a concrete anchor and document. -/
theorem c7_refines_witness :
    truthy (match_header (sc "#Install Guide") (Doc.mk [sc "install guide"] []))
      = matchesSpecAmended (sc "#Install Guide") (Doc.mk [sc "install guide"] []) :=
  c7_refines (sc "#Install Guide") (Doc.mk [sc "install guide"] []) (by decide)

/-- C8 counterexample: for a URL containing `github`, the trace of the remote
check contains both the GET and the sleep, but no sleep occurs before the
GET — the politeness delay is performed after the request is issued, not
before. -/
theorem c8_sleep_not_before_get :
    occursBefore (Event.sleep 1) (Event.get (sc "https://github.com/x"))
        (step envGh (sc "a.md") false none stTriv (some (sc "https://github.com/x"))).1
      = false ∧
    (step envGh (sc "a.md") false none stTriv
        (some (sc "https://github.com/x"))).1.contains (Event.sleep 1) = true ∧
    (step envGh (sc "a.md") false none stTriv
        (some (sc "https://github.com/x"))).1.contains
        (Event.get (sc "https://github.com/x")) = true := by
  decide

/-- C8 (amended): for every checked remote URL containing the substring
`github` whose GET returns a response, the fixed politeness sleep is
performed immediately after that GET (and before the status check), on every
such request. -/
theorem c8_sleep_after_get (env : Env) (file : Str) (v : Bool)
    (um : Option (Str → Bool)) (st : LoopSt) (h : Str) (s : Nat)
    (hg : isSub (sc "github") h = true)
    (h1 : startsHash h = false) (h2 : exclMatch um h = false)
    (h3 : env.isValidUrl h = true) (hr : env.http h = HttpRes.resp s) :
    ∃ rest, (step env file v um st (some h)).1
        = Event.get h :: Event.sleep 1 :: rest := by
  by_cases hs : s = 200 <;>
    simp [step, h1, h2, h3, urlSection, remoteCheck, hr, hg, hs]

/-- C8 witness: the theorem applied to a concrete GitHub URL returning 404. -/
theorem c8_sleep_after_get_witness :
    ∃ rest, (step envGh (sc "a.md") false none stTriv
        (some (sc "https://github.com/x"))).1
      = Event.get (sc "https://github.com/x") :: Event.sleep 1 :: rest :=
  c8_sleep_after_get envGh (sc "a.md") false none stTriv
    (sc "https://github.com/x") 404 (by decide) (by decide) rfl rfl rfl

/-- C9 counterexample: the href `x.md#!` contains `#` but its anchor part
begins with a non-word character; the anchor regex finds no match, the
script's `[0]` raises `IndexError`, the loop is aborted and the run exits 0 —
the link is neither treated as a bare local path nor surfaced as Broken. -/
theorem c9_malformed_anchor_raises :
    toRunOut (mainBuild envTriv (sc "a.md") false none
        (Except.ok (Doc.mk [] [some (sc "x.md#!")])))
      = some (RunOut.mk [Event.noteLine] 0 true) := by
  decide

/-- C9 (amended): for every href that contains `#`, is not an in-document
anchor, is not excluded and is not a valid absolute URL, but on which the
anchor regex finds no match, classification raises: the iteration produces no
events and no outcome, the counter is unchanged, and the exception escapes
the loop to the top-level handler. -/
theorem c9_step_raises (env : Env) (file : Str) (v : Bool)
    (um : Option (Str → Bool)) (st : LoopSt) (h : Str)
    (h1 : startsHash h = false) (h2 : exclMatch um h = false)
    (h3 : env.isValidUrl h = false) (h4 : h.contains '#' = true)
    (h5 : findSplit h = none) :
    step env file v um st (some h) = ([], StepRes.raised st) := by
  have h4m : '#' ∈ h := List.elem_iff.mp h4
  simp [step, h1, h2, h3, h4m, h5, urlSection, localBranch]

/-- C9 witness: the theorem applied to the concrete href `x.md#!`. -/
theorem c9_step_raises_witness :
    step envTriv (sc "a.md") false none stTriv (some (sc "x.md#!"))
      = ([], StepRes.raised stTriv) :=
  c9_step_raises envTriv (sc "a.md") false none stTriv (sc "x.md#!")
    (by decide) rfl rfl (by decide) (by decide)

/-- C10: for every environment, input file, exclusion configuration and
parse result, the final exit status of a run of the build variant is the same
with and without the verbose flag — verbosity changes only which lines are
printed, never the failure count or the crash behaviour. -/
theorem c10_verbose_independent (env : Env) (file : Str)
    (cfgFile : Option (Except Unit CfgData)) (docRes : Except Unit Doc) (v : Bool) :
    exitCode (mainBuild env file v cfgFile docRes)
      = exitCode (mainBuild env file false cfgFile docRes) := by
  unfold mainBuild
  split
  · rfl
  · split
    · rfl
    · split
      · rfl
      · simp [exitCode, runTry_verbose]
    · simp [exitCode, runTry_verbose]
